import Mathlib

/-!
Verification of the Cast Sync horizontal sync engine against its
natural-language specification.  The definitions below are shallow
embeddings of the Python sources:

* `cast_sync/hsync.py`  — decision engine (`_decide_sync`), deletion pass,
  plan executor, symmetric baseline updates, safe copy/move with
  id-aware collision avoidance, cascade driver;
* `cast_core/registry.py` — machine registry (`register_cast`);
* `cast_core/yamlio.py`  — `cast-vaults` entry parsing
  (`VAULT_ENTRY_REGEX`, `parse_vault_entries`).

Python dicts are modelled as association lists with python-dict update
semantics (replace in place when the key is present, append otherwise);
the filesystem is modelled as an association list from path strings to
notes carrying the cast-id that `_read_cast_id` would report.
-/

namespace CastSync

/-! ## Python-dict model -/

/-- Association-list model of a python dict (insertion ordered). -/
abbrev Dict (α β : Type) := List (α × β)

/-- First binding for a key (python `d[k]` / `d.get(k)`). -/
def dictFind? {α β : Type} [DecidableEq α] (m : Dict α β) (k : α) : Option β :=
  match m with
  | [] => none
  | (k', v) :: rest => if k' = k then some v else dictFind? rest k

/-- `k in d`. -/
def dictHas {α β : Type} [DecidableEq α] (m : Dict α β) (k : α) : Bool :=
  (dictFind? m k).isSome

/-- Drop every binding of a key. -/
def removeKey {α β : Type} [DecidableEq α] (m : Dict α β) (k : α) : Dict α β :=
  match m with
  | [] => []
  | (k', v) :: rest => if k' = k then removeKey rest k else (k', v) :: removeKey rest k

/-- `d[k] = v`: replace in place when present, append otherwise. -/
def dictInsert {α β : Type} [DecidableEq α] (m : Dict α β) (k : α) (v : β) : Dict α β :=
  match m with
  | [] => [(k, v)]
  | (k', v') :: rest =>
      if k' = k then (k, v) :: removeKey rest k
      else (k', v') :: dictInsert rest k v

/-- `d.pop(k, None)`: drop every binding of the key. -/
def dictErase {α β : Type} [DecidableEq α] (m : Dict α β) (k : α) : Dict α β :=
  removeKey m k

theorem dictFind?_removeKey_self {α β : Type} [DecidableEq α]
    (m : Dict α β) (k : α) : dictFind? (removeKey m k) k = none := by
  induction m with
  | nil => rfl
  | cons hd tl ih =>
      obtain ⟨a, b⟩ := hd
      by_cases ha : a = k
      · simpa [removeKey, ha] using ih
      · simp [removeKey, ha, dictFind?, ih]

theorem dictFind?_removeKey_ne {α β : Type} [DecidableEq α]
    (m : Dict α β) (k k' : α) (hk : k' ≠ k) :
    dictFind? (removeKey m k) k' = dictFind? m k' := by
  induction m with
  | nil => rfl
  | cons hd tl ih =>
      obtain ⟨a, b⟩ := hd
      by_cases ha : a = k
      · subst ha
        have hne : ¬ a = k' := fun h => hk h.symm
        simp [removeKey, dictFind?, hne, ih]
      · simp [removeKey, ha, dictFind?, ih]

theorem dictFind?_insert_self {α β : Type} [DecidableEq α]
    (m : Dict α β) (k : α) (v : β) : dictFind? (dictInsert m k v) k = some v := by
  induction m with
  | nil => simp [dictInsert, dictFind?]
  | cons hd tl ih =>
      obtain ⟨k', v'⟩ := hd
      by_cases h : k' = k
      · simp [dictInsert, dictFind?, h]
      · simp [dictInsert, dictFind?, h, ih]

theorem dictFind?_insert_ne {α β : Type} [DecidableEq α]
    (m : Dict α β) (k k' : α) (v : β) (hk : k' ≠ k) :
    dictFind? (dictInsert m k v) k' = dictFind? m k' := by
  induction m with
  | nil =>
      have hne : ¬ k = k' := fun h => hk h.symm
      simp [dictInsert, dictFind?, hne]
  | cons hd tl ih =>
      obtain ⟨a, b⟩ := hd
      by_cases ha : a = k
      · subst ha
        have hne : ¬ a = k' := fun h => hk h.symm
        simp [dictInsert, dictFind?, hne, dictFind?_removeKey_ne tl a k' hk]
      · simp [dictInsert, dictFind?, ha, ih]

theorem dictFind?_erase_self {α β : Type} [DecidableEq α]
    (m : Dict α β) (k : α) : dictFind? (dictErase m k) k = none :=
  dictFind?_removeKey_self m k

theorem dictFind?_erase_ne {α β : Type} [DecidableEq α]
    (m : Dict α β) (k k' : α) (hk : k' ≠ k) :
    dictFind? (dictErase m k) k' = dictFind? m k' :=
  dictFind?_removeKey_ne m k k' hk

/-! ## Decision engine (`cast_sync/hsync.py`, `SyncDecision`, `_decide_sync`) -/

/-- Sync decision for a file/peer pair (`class SyncDecision(Enum)`). -/
inductive SyncDecision where
  | NO_OP
  | PULL
  | PUSH
  | CONFLICT
  | DELETE_LOCAL
  | DELETE_PEER
  | CREATE_PEER
  | CREATE_LOCAL
  | RENAME_PEER
  | RENAME_LOCAL
deriving DecidableEq, Repr

/-- Baseline entry (`SyncStateEntry`: digest + timestamp). -/
structure SyncStateEntry where
  digest : String
  ts : String
deriving DecidableEq, Repr

/-- `syncstate.baselines`: cast-id → peer-name → entry. -/
abbrev Baselines := Dict String (Dict String SyncStateEntry)

/-- Digest recorded for a (cast-id, peer) pair, if any. -/
def baselineDigest (bs : Baselines) (castId peerName : String) : Option String :=
  match dictFind? bs castId with
  | none => none
  | some inner => (dictFind? inner peerName).map SyncStateEntry.digest

/-- In-memory file record (`FileRec`): the fields `_decide_sync` reads. -/
structure FileRec where
  cast_id : String
  relpath : String
  digest : String
  peers : Dict String String
deriving DecidableEq, Repr

/-- `_decide_sync`: 3-way decision for a file/peer pair, translated
branch for branch from `hsync.py` lines 319–374. -/
def decideSync (bs : Baselines) (localRec : FileRec) (peerRec : Option FileRec)
    (peerName : String) (mode : String) : SyncDecision :=
  let baseline := baselineDigest bs localRec.cast_id peerName
  match peerRec with
  | none =>
      match baseline with
      | none => if mode = "live" then .CREATE_PEER else .NO_OP
      | some b => if localRec.digest = b then .DELETE_LOCAL else .CONFLICT
  | some pr =>
      match baseline with
      | none =>
          if localRec.digest = pr.digest then
            if localRec.relpath ≠ pr.relpath then
              if mode = "live" then .RENAME_PEER else .RENAME_LOCAL
            else .NO_OP
          else .CONFLICT
      | some b =>
          if localRec.digest = b ∧ pr.digest ≠ b then .PULL
          else if pr.digest = b ∧ localRec.digest ≠ b then
            if mode = "live" then .PUSH else .NO_OP
          else if localRec.digest ≠ b ∧ pr.digest ≠ b ∧ localRec.digest ≠ pr.digest then
            .CONFLICT
          else if localRec.relpath ≠ pr.relpath then
            if mode = "live" then .RENAME_PEER else .RENAME_LOCAL
          else .NO_OP

/-- C3: with the peer record absent, the decision is `CREATE_PEER` in live
mode and `NO_OP` otherwise when no baseline exists; `DELETE_LOCAL`
(irrespective of the mode, never `CONFLICT`) when a baseline exists and the
local digest equals it; and `CONFLICT` when a baseline exists and the local
digest differs from it. -/
theorem decideSync_peer_absent (bs : Baselines) (rec : FileRec)
    (peerName mode : String) :
    (baselineDigest bs rec.cast_id peerName = none →
      decideSync bs rec none peerName mode =
        (if mode = "live" then .CREATE_PEER else .NO_OP))
    ∧ (∀ b, baselineDigest bs rec.cast_id peerName = some b → rec.digest = b →
      decideSync bs rec none peerName mode = .DELETE_LOCAL)
    ∧ (∀ b, baselineDigest bs rec.cast_id peerName = some b → rec.digest ≠ b →
      decideSync bs rec none peerName mode = .CONFLICT) := by
  refine ⟨?_, ?_, ?_⟩
  · intro h
    simp [decideSync, h]
  · intro b hb hd
    simp [decideSync, hb, hd]
  · intro b hb hd
    simp [decideSync, hb, hd]

/-- Witness for `decideSync_peer_absent` at a concrete input: the
`DELETE_LOCAL` case in live mode. -/
theorem decideSync_peer_absent_witness :
    decideSync [("X", [("B", ⟨"d", "t"⟩)])]
      ⟨"X", "x.md", "d", [("B", "live")]⟩ none "B" "live" = .DELETE_LOCAL :=
  (decideSync_peer_absent [("X", [("B", ⟨"d", "t"⟩)])]
      ⟨"X", "x.md", "d", [("B", "live")]⟩ "B" "live").2.1 "d" (by decide) (by decide)

/-! ## Plan construction (`_sync_core`): main pass and deletion pass -/

/-- A planned action for one (note, peer) pair, together with the declared
mode the decision was made under (`""` for the deletion pass, where the
local note — and hence its declaration — is gone). -/
structure PlanE where
  cast_id : String
  peerName : String
  mode : String
  decision : SyncDecision
deriving DecidableEq, Repr

/-- Resolvable peers: peer name → (cast-id → peer record), as produced by
`_index_peer`; unresolvable peers are absent. -/
abbrev PeerDb := Dict String (Dict String FileRec)

/-- Plans the main pass of `_sync_core` produces for one local record
(lines 405–475): one per declared peer, skipping self and unresolvable
peers, decided by `_decide_sync`. -/
def plansForRec (selfName : String) (bs : Baselines) (db : PeerDb)
    (rec : FileRec) : List PlanE :=
  rec.peers.filterMap (fun pm =>
    if pm.1 = selfName then none
    else
      match dictFind? db pm.1 with
      | none => none
      | some pidx =>
          some ⟨rec.cast_id, pm.1, pm.2,
            decideSync bs rec (dictFind? pidx rec.cast_id) pm.1 pm.2⟩)

/-- Main-pass plans over the whole local index. -/
def mainPlans (selfName : String) (bs : Baselines) (db : PeerDb) :
    List FileRec → List PlanE
  | [] => []
  | r :: rs => plansForRec selfName bs db r ++ mainPlans selfName bs db rs

/-- Deletion-pass plans for one baseline row (`_sync_core` lines 510–559):
if the cast-id is still present locally nothing is derived; otherwise, for
each resolvable peer holding the note, `DELETE_PEER` when the peer digest
equals the baseline and `CONFLICT` otherwise (no mode is consulted). -/
def deletionPlansFor (db : PeerDb) (localIndex : List FileRec) (cid : String)
    (peersMap : Dict String SyncStateEntry) : List PlanE :=
  if localIndex.any (fun r => r.cast_id = cid) then []
  else
    peersMap.filterMap (fun pe =>
      match dictFind? db pe.1 with
      | none => none
      | some pidx =>
          match dictFind? pidx cid with
          | none => none
          | some pr =>
              some ⟨cid, pe.1, "",
                if pr.digest = pe.2.digest then .DELETE_PEER else .CONFLICT⟩)

/-- Deletion-pass plans over all baseline rows. -/
def deletionPlans (db : PeerDb) (localIndex : List FileRec) :
    Baselines → List PlanE
  | [] => []
  | (cid, pm) :: rest =>
      deletionPlansFor db localIndex cid pm ++ deletionPlans db localIndex rest

/-- All plans a `_sync_core` run executes (main pass then deletion pass). -/
def allPlans (selfName : String) (bs : Baselines) (db : PeerDb)
    (localIndex : List FileRec) : List PlanE :=
  mainPlans selfName bs db localIndex ++ deletionPlans db localIndex bs

/-- Some present local note declares the peer in watch mode. -/
def watchDeclared (localIndex : List FileRec) (p : String) : Prop :=
  ∃ rec ∈ localIndex, dictFind? rec.peers p = some "watch"

/-- Local index of the C1 counterexample: one surviving note that declares
peer `B` in watch mode. -/
def c1Idx : List FileRec := [⟨"X", "x.md", "dx", [("B", "watch")]⟩]

/-- Baselines of the C1 counterexample: a row for a cast-id `Y` that is
missing locally, with peer `B` at digest `d`. -/
def c1Bs : Baselines := [("Y", [("B", ⟨"d", "t"⟩)])]

/-- Peer database of the C1 counterexample: peer `B` still holds note `Y`
at the baseline digest. -/
def c1Db : PeerDb := [("B", [("Y", ⟨"Y", "y.md", "d", []⟩)])]

/-- C1 counterexample: the claim as stated is false — with peer `B`
declared in watch mode by a present local note, the deletion pass still
produces a `DELETE_PEER` plan targeting `B` for a cast-id that is missing
locally (its baseline digest matching the peer digest). -/
theorem watch_deletion_pass_cex :
    ¬ (∀ (selfName : String) (bs : Baselines) (db : PeerDb)
        (idx : List FileRec) (p : String),
        watchDeclared idx p →
        ∀ plan ∈ allPlans selfName bs db idx, plan.peerName = p →
          plan.decision ≠ .PUSH ∧ plan.decision ≠ .CREATE_PEER ∧
          plan.decision ≠ .DELETE_PEER ∧ plan.decision ≠ .RENAME_PEER) := by
  intro h
  have hw : watchDeclared c1Idx "B" := ⟨⟨"X", "x.md", "dx", [("B", "watch")]⟩, by decide, by decide⟩
  have hmem : (⟨"Y", "B", "", .DELETE_PEER⟩ : PlanE) ∈ allPlans "A" c1Bs c1Db c1Idx := by
    decide
  exact (h "A" c1Bs c1Db c1Idx "B" hw ⟨"Y", "B", "", .DELETE_PEER⟩ hmem rfl).2.2.1 rfl

/-- In any mode other than `"live"` the decision engine never returns
`PUSH`, `CREATE_PEER`, `DELETE_PEER` or `RENAME_PEER` (it never returns
`DELETE_PEER` at all). -/
theorem decideSync_watch_safe (bs : Baselines) (rec : FileRec)
    (peerRec : Option FileRec) (pname mode : String) (h : mode ≠ "live") :
    decideSync bs rec peerRec pname mode ≠ .PUSH ∧
    decideSync bs rec peerRec pname mode ≠ .CREATE_PEER ∧
    decideSync bs rec peerRec pname mode ≠ .DELETE_PEER ∧
    decideSync bs rec peerRec pname mode ≠ .RENAME_PEER := by
  unfold decideSync
  cases peerRec <;> cases hb : baselineDigest bs rec.cast_id pname <;>
    simp only [hb] <;> split_ifs <;> simp_all

/-- C1 (amended): for every plan of the main pass — plans decided from a
present local record — whose declaring note's mode for the peer is not
live (watch), the decision is never `PUSH`, `CREATE_PEER`, `DELETE_PEER`
or `RENAME_PEER`.  (The deletion pass, in contrast, consults no mode and
may emit `DELETE_PEER` to a watch peer, as the counterexample shows.) -/
theorem watch_mode_main_pass (selfName : String) (bs : Baselines)
    (db : PeerDb) (idx : List FileRec) (plan : PlanE)
    (hmem : plan ∈ mainPlans selfName bs db idx) (hw : plan.mode ≠ "live") :
    plan.decision ≠ .PUSH ∧ plan.decision ≠ .CREATE_PEER ∧
    plan.decision ≠ .DELETE_PEER ∧ plan.decision ≠ .RENAME_PEER := by
  induction idx with
  | nil => cases hmem
  | cons r rs ih =>
      rw [mainPlans, List.mem_append] at hmem
      rcases hmem with hmem | hmem
      · rcases List.mem_filterMap.mp hmem with ⟨pm, _, hf⟩
        by_cases hself : pm.1 = selfName
        · simp [hself] at hf
        · cases hdb : dictFind? db pm.1 with
          | none => simp [hself, hdb] at hf
          | some pidx =>
              simp only [hself, hdb, if_neg] at hf
              cases hf
              exact decideSync_watch_safe bs r
                (dictFind? pidx r.cast_id) pm.1 pm.2 hw
      · exact ih hmem

/-- Witness for `watch_mode_main_pass`: on the concrete run of the C1
counterexample state, the main-pass plan to watch peer `B` is none of the
four originating decisions (it is `NO_OP`). -/
theorem watch_mode_main_pass_witness :
    (⟨"X", "B", "watch", .NO_OP⟩ : PlanE) ∈ mainPlans "A" c1Bs c1Db c1Idx ∧
    (PlanE.decision ⟨"X", "B", "watch", .NO_OP⟩ ≠ .PUSH ∧
     PlanE.decision ⟨"X", "B", "watch", .NO_OP⟩ ≠ .CREATE_PEER ∧
     PlanE.decision ⟨"X", "B", "watch", .NO_OP⟩ ≠ .DELETE_PEER ∧
     PlanE.decision ⟨"X", "B", "watch", .NO_OP⟩ ≠ .RENAME_PEER) :=
  ⟨by decide,
   watch_mode_main_pass "A" c1Bs c1Db c1Idx ⟨"X", "B", "watch", .NO_OP⟩
     (by decide) (by decide)⟩

/-! ## Symmetric baseline updates (`_update_baseline_both`, `_clear_baseline_both`) -/

/-- `_update_baseline`: ensure the outer row exists, then set the inner
entry for the peer. -/
def updateBaseline (bs : Baselines) (castId peerName digest ts : String) : Baselines :=
  let inner := (dictFind? bs castId).getD []
  dictInsert bs castId (dictInsert inner peerName ⟨digest, ts⟩)

/-- `_update_baseline_both`: update the local store under the peer's name
and — when a peer root is available — the peer's store under *our* name,
with the same digest. -/
def updateBaselineBoth (localBs : Baselines) (peerBs? : Option Baselines)
    (castId peerName digest ourName ts : String) : Baselines × Option Baselines :=
  (updateBaseline localBs castId peerName digest ts,
   match peerBs? with
   | none => none
   | some pbs => some (updateBaseline pbs castId ourName digest ts))

/-- Local half of `_clear_baseline_both`: pop the peer's entry and prune
the outer row when its inner map becomes empty. -/
def clearBaseline (bs : Baselines) (castId peerName : String) : Baselines :=
  match dictFind? bs castId with
  | none => bs
  | some inner =>
      let inner' := dictErase inner peerName
      if inner' = [] then dictErase bs castId
      else dictInsert bs castId inner'

/-- `_clear_baseline_both`: clear locally under the peer's name and — when
a peer root is available — in the peer's store under *our* name. -/
def clearBaselineBoth (localBs : Baselines) (peerBs? : Option Baselines)
    (castId peerName ourName : String) : Baselines × Option Baselines :=
  (clearBaseline localBs castId peerName,
   peerBs?.map (fun pbs => clearBaseline pbs castId ourName))

theorem baselineDigest_update_self (bs : Baselines) (cid peer d ts : String) :
    baselineDigest (updateBaseline bs cid peer d ts) cid peer = some d := by
  simp [baselineDigest, updateBaseline, dictFind?_insert_self]

theorem baselineDigest_clear_self (bs : Baselines) (cid peer : String) :
    baselineDigest (clearBaseline bs cid peer) cid peer = none := by
  unfold clearBaseline
  cases h : dictFind? bs cid with
  | none => simp [baselineDigest, h]
  | some inner =>
      by_cases he : dictErase inner peer = []
      · simp [baselineDigest, he, dictFind?_erase_self]
      · simp [baselineDigest, he, dictFind?_insert_self, dictFind?_erase_self]

theorem clearBaseline_prunes (bs : Baselines) (cid peer : String) :
    ∀ inner, dictFind? (clearBaseline bs cid peer) cid = some inner → inner ≠ [] := by
  intro inner0 hfind
  unfold clearBaseline at hfind
  cases h : dictFind? bs cid with
  | none =>
      simp only [h] at hfind
      cases hfind
  | some inner =>
      by_cases he : dictErase inner peer = []
      · rw [h] at hfind
        simp only [he, if_pos] at hfind
        rw [dictFind?_erase_self] at hfind
        cases hfind
      · rw [h] at hfind
        simp only [he, if_neg, reduceIte] at hfind
        rw [dictFind?_insert_self] at hfind
        cases hfind
        exact he

/-- C4: after a symmetric baseline update on `(cast-id, peer)` the local
store's entry under the peer's name and the peer store's entry under our
name hold the same digest; and a symmetric clear removes both mirrored
entries, never leaving an empty inner map behind for that cast-id. -/
theorem baseline_both_symmetric (lbs pbs lbs2 pbs2 : Baselines)
    (cid peer ourName d ts : String) :
    baselineDigest (updateBaselineBoth lbs (some pbs) cid peer d ourName ts).1 cid peer
      = some d
    ∧ (∃ pb, (updateBaselineBoth lbs (some pbs) cid peer d ourName ts).2 = some pb
        ∧ baselineDigest pb cid ourName = some d)
    ∧ baselineDigest (clearBaselineBoth lbs2 (some pbs2) cid peer ourName).1 cid peer
      = none
    ∧ (∃ pb, (clearBaselineBoth lbs2 (some pbs2) cid peer ourName).2 = some pb
        ∧ baselineDigest pb cid ourName = none)
    ∧ (∀ inner, dictFind? (clearBaselineBoth lbs2 (some pbs2) cid peer ourName).1 cid
          = some inner → inner ≠ [])
    ∧ (∀ pb inner, (clearBaselineBoth lbs2 (some pbs2) cid peer ourName).2 = some pb →
        dictFind? pb cid = some inner → inner ≠ []) := by
  refine ⟨baselineDigest_update_self lbs cid peer d ts,
    ⟨updateBaseline pbs cid ourName d ts, rfl, baselineDigest_update_self pbs cid ourName d ts⟩,
    baselineDigest_clear_self lbs2 cid peer,
    ⟨clearBaseline pbs2 cid ourName, rfl, baselineDigest_clear_self pbs2 cid ourName⟩,
    clearBaseline_prunes lbs2 cid peer, ?_⟩
  intro pb inner hpb hfind
  have hpb' : pb = clearBaseline pbs2 cid ourName := by
    simpa [clearBaselineBoth] using hpb.symm
  exact clearBaseline_prunes pbs2 cid ourName inner (hpb' ▸ hfind)

/-- Witness for `baseline_both_symmetric` at concrete stores. -/
theorem baseline_both_symmetric_witness :
    baselineDigest (updateBaselineBoth [] (some []) "X" "B" "d" "A" "t").1 "X" "B"
      = some "d"
    ∧ baselineDigest
        (clearBaselineBoth [("X", [("B", ⟨"d", "t"⟩)])]
          (some [("X", [("A", ⟨"d", "t"⟩)])]) "X" "B" "A").1 "X" "B" = none :=
  ⟨(baseline_both_symmetric [] [] [("X", [("B", ⟨"d", "t"⟩)])]
      [("X", [("A", ⟨"d", "t"⟩)])] "X" "B" "A" "d" "t").1,
   (baseline_both_symmetric [] [] [("X", [("B", ⟨"d", "t"⟩)])]
      [("X", [("A", ⟨"d", "t"⟩)])] "X" "B" "A" "d" "t").2.2.1⟩

/-! ## Cascade driver exit code (`HorizontalSync.sync`, lines 801–820) -/

/-- Exit-code combination of the cascade driver: the local run's code
folded with plain `max` over the sub-runs' codes (`code = max(code, code2)`). -/
def cascadeExit (localCode : Nat) (subCodes : List Nat) : Nat :=
  subCodes.foldl max localCode

/-- Modelled from the spec: severity rank of an exit code under the
spec's lexicographic ordering `0 < 1 < 3 < 2`. -/
def specSeverity (c : Nat) : Nat :=
  if c = 2 then 3 else if c = 3 then 2 else c

/-- Modelled from the spec: binary maximum under the ordering `0 < 1 < 3 < 2`. -/
def specLexMax (a b : Nat) : Nat :=
  if specSeverity a < specSeverity b then b else a

/-- Modelled from the spec: cascading exit code as the spec describes it. -/
def specCascadeExit (localCode : Nat) (subCodes : List Nat) : Nat :=
  subCodes.foldl specLexMax localCode

/-- C6 counterexample: with sub-runs returning 2 and 3 the code computes
3 (plain numeric maximum), while the claim's lexicographic ordering
`0 < 1 < 3 < 2` demands 2. -/
theorem cascade_exit_cex :
    cascadeExit 0 [2, 3] = 3 ∧ specCascadeExit 0 [2, 3] = 2 ∧
    cascadeExit 0 [2, 3] ≠ specCascadeExit 0 [2, 3] := by decide

/-- C6 (amended): the exit code of a cascading run is the plain numeric
maximum of the local run's code and all sub-runs' codes (ordering
`0 < 1 < 2 < 3`); in particular sub-runs returning 2 and 3 yield 3. -/
theorem cascade_exit_numeric_max (l : Nat) (subs : List Nat) :
    cascadeExit l subs ∈ l :: subs ∧ ∀ c ∈ l :: subs, c ≤ cascadeExit l subs := by
  induction subs generalizing l with
  | nil =>
      refine ⟨List.mem_singleton.mpr rfl, ?_⟩
      intro c hc
      rw [List.mem_singleton] at hc
      exact hc.le
  | cons a as ih =>
      have hfold : cascadeExit l (a :: as) = cascadeExit (max l a) as := rfl
      obtain ⟨hmem, hbound⟩ := ih (max l a)
      constructor
      · rw [hfold]
        rcases List.mem_cons.mp hmem with h | h
        · rcases max_choice l a with hm | hm
          · rw [h, hm]
            exact List.mem_cons_self l (a :: as)
          · rw [h, hm]
            exact List.mem_cons_of_mem l (List.mem_cons_self a as)
        · exact List.mem_cons_of_mem l (List.mem_cons_of_mem a h)
      · intro c hc
        rw [hfold]
        have hml : max l a ≤ cascadeExit (max l a) as :=
          hbound (max l a) (List.mem_cons_self _ _)
        rcases List.mem_cons.mp hc with h | h
        · subst h
          exact le_trans (le_max_left _ a) hml
        · rcases List.mem_cons.mp h with h' | h'
          · subst h'
            exact le_trans (le_max_right l _) hml
          · exact hbound c (List.mem_cons_of_mem _ h')

/-- Witness for `cascade_exit_numeric_max` at the concrete sub-run codes
2 and 3. -/
theorem cascade_exit_numeric_max_witness :
    cascadeExit 0 [2, 3] ∈ (0 : Nat) :: [2, 3] ∧ 2 ≤ cascadeExit 0 [2, 3] :=
  ⟨(cascade_exit_numeric_max 0 [2, 3]).1,
   (cascade_exit_numeric_max 0 [2, 3]).2 2 (by decide)⟩

/-! ## Machine registry (`cast_core/registry.py`, `register_cast`) -/

/-- Registry payload for one cast (`CastEntry` without the id key). -/
structure CastEntry where
  name : String
  root : String
  vault_location : String
deriving DecidableEq, Repr

/-- `reg["casts"]`: cast-id → entry. -/
abbrev Registry := Dict String CastEntry

/-- `register_cast`: `reg["casts"][cast_id] = {...}` — insert or replace
by cast-id (nothing else). -/
def registerCast (casts : Registry) (castId : String) (e : CastEntry) : Registry :=
  dictInsert casts castId e

/-- No two registry entries share a cast-name. -/
def nameUnique (casts : Registry) : Prop :=
  ∀ p ∈ casts, ∀ q ∈ casts, p.2.name = q.2.name → p.1 = q.1

/-- C7 counterexample: registering a root whose config carries the
cast-name `A` already held by a different cast-id leaves both entries in
the registry — the prior entry is not removed, and name uniqueness fails. -/
theorem register_cast_name_collision_cex :
    ¬ nameUnique (registerCast [("id1", ⟨"A", "r1", "v"⟩)] "id2" ⟨"A", "r2", "v"⟩)
    ∧ dictFind? (registerCast [("id1", ⟨"A", "r1", "v"⟩)] "id2" ⟨"A", "r2", "v"⟩) "id1"
        = some ⟨"A", "r1", "v"⟩ := by
  constructor
  · intro h
    have := h ("id1", ⟨"A", "r1", "v"⟩) (by decide) ("id2", ⟨"A", "r2", "v"⟩) (by decide) rfl
    simp at this
  · decide

/-- C7 (amended): `register_cast` inserts or replaces by cast-id only —
after registering, the registry maps that cast-id to the new entry and
every other cast-id to exactly what it held before (entries sharing the
same cast-name are not removed). -/
theorem register_cast_by_id (casts : Registry) (cid : String) (e : CastEntry) :
    dictFind? (registerCast casts cid e) cid = some e
    ∧ ∀ cid', cid' ≠ cid →
        dictFind? (registerCast casts cid e) cid' = dictFind? casts cid' :=
  ⟨dictFind?_insert_self casts cid e,
   fun cid' h => dictFind?_insert_ne casts cid cid' e h⟩

/-- Witness for `register_cast_by_id` on a concrete registry with a
colliding name. -/
theorem register_cast_by_id_witness :
    dictFind? (registerCast [("id1", ⟨"A", "r1", "v"⟩)] "id2" ⟨"A", "r2", "v"⟩) "id2"
      = some ⟨"A", "r2", "v"⟩
    ∧ dictFind? (registerCast [("id1", ⟨"A", "r1", "v"⟩)] "id2" ⟨"A", "r2", "v"⟩) "id1"
      = dictFind? [("id1", (⟨"A", "r1", "v"⟩ : CastEntry))] "id1" :=
  ⟨(register_cast_by_id [("id1", ⟨"A", "r1", "v"⟩)] "id2" ⟨"A", "r2", "v"⟩).1,
   (register_cast_by_id [("id1", ⟨"A", "r1", "v"⟩)] "id2" ⟨"A", "r2", "v"⟩).2 "id1"
     (by decide)⟩

/-! ## `cast-vaults` entry parsing (`cast_core/yamlio.py`) -/

/-- Drop trailing whitespace (regex `\s*$`). -/
def trimRightList (cs : List Char) : List Char :=
  (cs.reverse.dropWhile Char.isWhitespace).reverse

/-- Drop leading whitespace (regex `^\s*`). -/
def trimLeftList (cs : List Char) : List Char :=
  cs.dropWhile Char.isWhitespace

/-- Strip whitespace on both sides. -/
def trimList (cs : List Char) : List Char :=
  trimRightList (trimLeftList cs)

/-- Suffix test on character lists. -/
def endsWithList (cs suf : List Char) : Bool :=
  cs.reverse.take suf.length == suf.reverse

/-- Drop the last `n` characters. -/
def dropRightList (cs : List Char) (n : Nat) : List Char :=
  cs.take (cs.length - n)

/-- A parenthesis character (excluded from the regex's name group `[^()]`). -/
def isParen (c : Char) : Bool :=
  c = '(' || c = ')'

/-- Match of one `cast-vaults` entry against `VAULT_ENTRY_REGEX`
(`^\s*(?P<name>[^()]+?)\s*\((?P<mode>live|watch)\)\s*$`): the
right-trimmed entry must end in `(live)` or `(watch)`; the captured name
is the part before that suffix with surrounding whitespace stripped
(greedy leading `\s*`, lazy name), non-empty and free of parentheses.
When that part is whitespace only but non-empty, backtracking leaves its
last whitespace character as the captured name. -/
def parseVaultEntry (s : String) : Option (String × String) :=
  let t := trimRightList s.data
  let core : Option (List Char × String) :=
    if endsWithList t ['(', 'l', 'i', 'v', 'e', ')'] then
      some (dropRightList t 6, "live")
    else if endsWithList t ['(', 'w', 'a', 't', 'c', 'h', ')'] then
      some (dropRightList t 7, "watch")
    else none
  match core with
  | none => none
  | some (p, mode) =>
      let n := trimList p
      if n.isEmpty then
        if p.isEmpty then none
        else some (String.mk [p.getLastD ' '], mode)
      else if n.any isParen then none
      else some (String.mk n, mode)

/-- `parse_vault_entries`: fold the entries into a name → mode dict,
ignoring entries the pattern rejects. -/
def parseVaultEntries (entries : List String) : Dict String String :=
  entries.foldl
    (fun acc e =>
      match parseVaultEntry e with
      | none => acc
      | some (n, m) => dictInsert acc n m) []

/-- C9 counterexample: a bare entry `"B"` (no ` (live)` / ` (watch)`
suffix) does not match `VAULT_ENTRY_REGEX`, so parsing a list containing
it yields an empty peer map — the name is not in the declared peer set. -/
theorem bare_vault_entry_cex :
    parseVaultEntries ["B"] = [] ∧ dictFind? (parseVaultEntries ["B"]) "B" = none := by
  constructor <;> decide

/-- C9 (amended): a bare `<name>` entry — one whose right-trimmed text
ends in neither `(live)` nor `(watch)` — is not a well-formed peer
declaration: the parser ignores it, contributing nothing to the declared
peer set. -/
theorem bare_vault_entry_ignored (s : String) (es : List String)
    (h1 : endsWithList (trimRightList s.data) ['(', 'l', 'i', 'v', 'e', ')'] = false)
    (h2 : endsWithList (trimRightList s.data) ['(', 'w', 'a', 't', 'c', 'h', ')'] = false) :
    parseVaultEntry s = none ∧ parseVaultEntries (s :: es) = parseVaultEntries es := by
  have hnone : parseVaultEntry s = none := by
    unfold parseVaultEntry
    simp [h1, h2]
  refine ⟨hnone, ?_⟩
  unfold parseVaultEntries
  simp [List.foldl, hnone]

/-- Witness for `bare_vault_entry_ignored` at the bare entry `"B"`. -/
theorem bare_vault_entry_ignored_witness :
    parseVaultEntry "B" = none ∧
    parseVaultEntries ["B", "C (live)"] = parseVaultEntries ["C (live)"] :=
  bare_vault_entry_ignored "B" ["C (live)"] (by decide) (by decide)

/-! ## Rename execution branches (`_sync_core` lines 655–705) -/

/-- Observable side effects of one executor branch. -/
inductive ExecEffect where
  | safeMoveFile (src dest : String)
  | logEvent (name : String)
  | baselineUpdate (castId peerName digest : String)
  | linkRewrite (vault oldRel newRel : String)
deriving DecidableEq, Repr

/-- Whether an effect invokes the link rewriter. -/
def isLinkRewrite : ExecEffect → Bool
  | .linkRewrite _ _ _ => true
  | _ => false

/-- Python `plan.peer_digest or plan.local_digest` (falsy fallback). -/
def orDigest (peerDigest : Option String) (localDigest : String) : String :=
  match peerDigest with
  | some d => if d = "" then localDigest else d
  | none => localDigest

/-- Effects of the `RENAME_PEER` branch, in order: `_safe_move`,
`_log_event("rename_peer", ...)`, `_update_baseline_both`.  There is no
link-rewriter invocation in the branch. -/
def renamePeerEffects (peerPath renameTo castId peerName : String)
    (peerDigest : Option String) (localDigest : String) : List ExecEffect :=
  [.safeMoveFile peerPath renameTo,
   .logEvent "rename_peer",
   .baselineUpdate castId peerName (orDigest peerDigest localDigest)]

/-- Effects of the `RENAME_LOCAL` branch, in order: `_safe_move`,
`_log_event("rename_local", ...)`, `_update_baseline_both`. -/
def renameLocalEffects (localPath renameTo castId peerName : String)
    (peerDigest : Option String) (localDigest : String) : List ExecEffect :=
  [.safeMoveFile localPath renameTo,
   .logEvent "rename_local",
   .baselineUpdate castId peerName (orDigest peerDigest localDigest)]

/-- C5: at the failing input of the repository's own integration test
(`test_hsync_rename_updates_peer_links_end_to_end`: peer `B` holds the
note at `Notes/Old Name.md`, the sync renames it to `Docs/New Name.md`),
neither rename branch of the executor produces a link-rewriter
invocation — the code never calls `update_links_for_renames`, although
the test (and the spec) require links in the containing vault to be
rewritten before the next plan. -/
theorem rename_branches_never_rewrite_links :
    ((renamePeerEffects "Notes/Old Name.md" "Docs/New Name.md"
        "11111111-1111-1111-1111-111111111111" "B" (some "d") "d").all
      (fun e => !(isLinkRewrite e)) = true)
    ∧ ((renameLocalEffects "Notes/Old Name.md" "Docs/New Name.md"
        "11111111-1111-1111-1111-111111111111" "B" (some "d") "d").all
      (fun e => !(isLinkRewrite e)) = true) := by decide

/-! ## Executor persistence (`_sync_core` execution loop, lines 580–763) -/

/-- Store state during plan execution: the in-memory local syncstate
(`self.syncstate`), the on-disk local syncstate (`syncstate.json`), and
the on-disk peer syncstates keyed by peer root. -/
structure ExecState where
  mem : Baselines
  localDisk : Baselines
  peerDisks : Dict String Baselines
deriving DecidableEq, Repr

/-- The fields of a `SyncPlan` the execution loop's baseline handling
reads (paths elided; `localExists` stands for `plan.local_path.exists()`
in the conflict branch). -/
structure ExecPlan where
  cast_id : String
  peerName : String
  peerRoot : String
  decision : SyncDecision
  localDigest : String
  peerDigest : Option String
  baselineDigest : Option String
  localExists : Bool
deriving DecidableEq, Repr

/-- `_update_baseline_both` as performed inside the loop: the local store
is updated in memory only; the peer store is loaded, updated under our
name and saved to disk at once. -/
def stateUpdateBoth (ourName ts : String) (s : ExecState) (p : ExecPlan)
    (digest : String) : ExecState :=
  { s with
    mem := updateBaseline s.mem p.cast_id p.peerName digest ts,
    peerDisks := dictInsert s.peerDisks p.peerRoot
      (updateBaseline ((dictFind? s.peerDisks p.peerRoot).getD [])
        p.cast_id ourName digest ts) }

/-- `_clear_baseline_both` as performed inside the loop. -/
def stateClearBoth (ourName : String) (s : ExecState) (p : ExecPlan) : ExecState :=
  { s with
    mem := clearBaseline s.mem p.cast_id p.peerName,
    peerDisks := dictInsert s.peerDisks p.peerRoot
      (clearBaseline ((dictFind? s.peerDisks p.peerRoot).getD [])
        p.cast_id ourName) }

/-- One iteration of the execution loop (lines 584–754), restricted to its
effect on the three stores; conflicts are resolved non-interactively
(`KEEP_LOCAL`). -/
def execStep (ourName ts : String) (s : ExecState) (p : ExecPlan) : ExecState :=
  match p.decision with
  | .NO_OP =>
      match p.peerDigest with
      | some pd =>
          if p.localDigest = pd ∧ p.baselineDigest ≠ some p.localDigest then
            stateUpdateBoth ourName ts s p p.localDigest
          else s
      | none => s
  | .PULL => stateUpdateBoth ourName ts s p (p.peerDigest.getD "")
  | .PUSH => stateUpdateBoth ourName ts s p p.localDigest
  | .CREATE_PEER => stateUpdateBoth ourName ts s p p.localDigest
  | .DELETE_LOCAL => stateClearBoth ourName s p
  | .DELETE_PEER => stateClearBoth ourName s p
  | .RENAME_PEER => stateUpdateBoth ourName ts s p (orDigest p.peerDigest p.localDigest)
  | .RENAME_LOCAL => stateUpdateBoth ourName ts s p (orDigest p.peerDigest p.localDigest)
  | .CONFLICT =>
      if p.localExists then stateUpdateBoth ourName ts s p p.localDigest
      else stateClearBoth ourName s p
  | .CREATE_LOCAL => s

/-- The execution loop over a plan list. -/
def execLoop (ourName ts : String) (s : ExecState) : List ExecPlan → ExecState
  | [] => s
  | p :: ps => execLoop ourName ts (execStep ourName ts s p) ps

/-- A full `_sync_core` execution: the loop followed by the single final
`_save_syncstate()` (line 757) that flushes the in-memory local store. -/
def execRun (ourName ts : String) (s : ExecState) (ps : List ExecPlan) : ExecState :=
  let s' := execLoop ourName ts s ps
  { s' with localDisk := s'.mem }

/-- C8 counterexample: after a successfully executed `PUSH` plan — at the
point where the next plan would execute — the baseline update sits in the
in-memory store and in the peer's on-disk store, but the local vault's
on-disk store still lacks it: interrupting here loses the completed
plan's local baseline. -/
theorem exec_local_store_not_saved_cex :
    baselineDigest (execLoop "A" "t" ⟨[], [], []⟩
      [⟨"X", "B", "rootB", .PUSH, "d1", none, none, true⟩]).mem "X" "B" = some "d1"
    ∧ (∃ pb, dictFind? (execLoop "A" "t" ⟨[], [], []⟩
        [⟨"X", "B", "rootB", .PUSH, "d1", none, none, true⟩]).peerDisks "rootB" = some pb
        ∧ baselineDigest pb "X" "A" = some "d1")
    ∧ baselineDigest (execLoop "A" "t" ⟨[], [], []⟩
        [⟨"X", "B", "rootB", .PUSH, "d1", none, none, true⟩]).localDisk "X" "B" = none := by
  refine ⟨by rfl, ⟨updateBaseline [] "X" "A" "d1" "t", by rfl, by rfl⟩, by rfl⟩

theorem execStep_localDisk (ourName ts : String) (s : ExecState) (p : ExecPlan) :
    (execStep ourName ts s p).localDisk = s.localDisk := by
  obtain ⟨cid, pn, pr, dec, ld, pd, bd, lex⟩ := p
  cases dec <;> cases pd <;>
    simp only [execStep] <;>
    first
      | rfl
      | (split_ifs <;> rfl)

/-- C8 (amended): during the execution loop the local vault's on-disk
store is never written — every local baseline update stays in memory and
is persisted once by the final save, after all plans (so the run's end
state has the on-disk local store equal to the in-memory one); the peer
vault's store, in contrast, is persisted immediately: after a `PUSH` or
`CREATE_PEER` step the peer's on-disk store already holds the new digest
under our name. -/
theorem exec_persistence (ourName ts : String) (s : ExecState)
    (ps : List ExecPlan) (p : ExecPlan) :
    (execLoop ourName ts s ps).localDisk = s.localDisk
    ∧ (execRun ourName ts s ps).localDisk = (execLoop ourName ts s ps).mem
    ∧ ((p.decision = .PUSH ∨ p.decision = .CREATE_PEER) →
        ∃ pb, dictFind? (execStep ourName ts s p).peerDisks p.peerRoot = some pb
          ∧ baselineDigest pb p.cast_id ourName = some p.localDigest) := by
  refine ⟨?_, rfl, ?_⟩
  · induction ps generalizing s with
    | nil => rfl
    | cons q qs ih =>
        rw [execLoop, ih (execStep ourName ts s q), execStep_localDisk]
  · intro h
    rcases h with h | h <;>
      refine ⟨updateBaseline ((dictFind? s.peerDisks p.peerRoot).getD [])
          p.cast_id ourName p.localDigest ts, ?_,
        baselineDigest_update_self _ _ _ _ _⟩ <;>
      simp [execStep, h, stateUpdateBoth, dictFind?_insert_self]

/-- Witness for `exec_persistence` at a concrete single-`PUSH` run. -/
theorem exec_persistence_witness :
    (execLoop "A" "t" ⟨[], [], []⟩
        [⟨"X", "B", "rootB", .PUSH, "d1", none, none, true⟩]).localDisk
      = ExecState.localDisk ⟨[], [], []⟩
    ∧ (∃ pb, dictFind? (execStep "A" "t" ⟨[], [], []⟩
          ⟨"X", "B", "rootB", .PUSH, "d1", none, none, true⟩).peerDisks "rootB" = some pb
        ∧ baselineDigest pb "X" "A" = some "d1") :=
  ⟨(exec_persistence "A" "t" ⟨[], [], []⟩
      [⟨"X", "B", "rootB", .PUSH, "d1", none, none, true⟩]
      ⟨"X", "B", "rootB", .PUSH, "d1", none, none, true⟩).1,
   (exec_persistence "A" "t" ⟨[], [], []⟩
      [⟨"X", "B", "rootB", .PUSH, "d1", none, none, true⟩]
      ⟨"X", "B", "rootB", .PUSH, "d1", none, none, true⟩).2.2 (Or.inl rfl)⟩

/-! ## Safe copy / move (`_read_cast_id`, `_safe_dest`, `_safe_copy`, `_safe_move`) -/

/-- A note on disk, reduced to what the executor's id checks read: the
cast-id that `_read_cast_id` reports (none when front matter is absent or
malformed) and the file content. -/
structure Note where
  castId : Option String
  content : String
deriving DecidableEq, Repr

/-- Filesystem model: path → note within the directories a plan touches. -/
abbrev FS := Dict String Note

/-- Python truthiness of an optional cast-id (`if existing_id and src_id`):
`None` and the empty string are falsy. -/
def truthyId : Option String → Bool
  | some s => s != ""
  | none => false

/-- Index of the last `.` in the character list, if any. -/
def lastDotIdx : List Char → Nat → Option Nat → Option Nat
  | [], _, acc => acc
  | c :: rest, i, acc => lastDotIdx rest (i + 1) (if c = '.' then some i else acc)

/-- `pathlib`'s `stem`/`suffix` split of a file name: the suffix starts at
the last dot when that dot is neither the first nor the last character. -/
def splitStemExt (s : String) : String × String :=
  let cs := s.data
  match lastDotIdx cs 0 none with
  | none => (s, "")
  | some i =>
      if 0 < i ∧ i + 1 < cs.length then (String.mk (cs.take i), String.mk (cs.drop i))
      else (s, "")

/-- The candidate names `_safe_dest` tries in order:
`"<stem> <suffix><ext>"` first, then `"<stem> <suffix> 2<ext>"`,
`"<stem> <suffix> 3<ext>"`, … -/
def collisionCandidate (stem sfx ext : String) : Nat → String
  | 0 => stem ++ " " ++ sfx ++ ext
  | k + 1 => stem ++ " " ++ sfx ++ " " ++ toString (k + 2) ++ ext

/-- The `while candidate.exists()` loop of `_safe_dest`, with explicit
fuel standing in for the finiteness of the real filesystem. -/
def safeDestLoop (fs : FS) (stem sfx ext : String) : Nat → Nat → Option String
  | j, 0 =>
      if dictHas fs (collisionCandidate stem sfx ext j) then none
      else some (collisionCandidate stem sfx ext j)
  | j, fuel + 1 =>
      if dictHas fs (collisionCandidate stem sfx ext j) then
        safeDestLoop fs stem sfx ext (j + 1) fuel
      else some (collisionCandidate stem sfx ext j)

/-- `_safe_dest`: the base path itself when free, otherwise the first free
suffixed candidate. -/
def safeDest (fs : FS) (base sfx : String) (fuel : Nat) : Option String :=
  if dictHas fs base then
    safeDestLoop fs (splitStemExt base).1 sfx (splitStemExt base).2 0 fuel
  else some base

/-- `_safe_copy`: when the destination exists and both cast-ids are
readable (truthy) and different, divert to `_safe_dest`; otherwise
overwrite in place.  Returns the final destination and the filesystem
after `shutil.copy2`. -/
def safeCopy (fs : FS) (src dest prov : String) (fuel : Nat) :
    Option (String × FS) :=
  match dictFind? fs src with
  | none => none
  | some srcNote =>
      let destFinal? : Option String :=
        if dictHas fs dest then
          let existingId := (dictFind? fs dest).bind Note.castId
          if truthyId existingId && truthyId srcNote.castId &&
              !(existingId == srcNote.castId) then
            safeDest fs dest ("(~from " ++ prov ++ ")") fuel
          else some dest
        else some dest
      match destFinal? with
      | none => none
      | some d => some (d, dictInsert fs d srcNote)

/-- `_safe_move`: identical source and destination is a no-op; an existing
destination with the *same* readable cast-id swallows the source; any
other existing destination (different or unreadable id) diverts to
`_safe_dest`.  Returns the final destination and the filesystem after
`shutil.move`. -/
def safeMove (fs : FS) (src dest prov : String) (fuel : Nat) :
    Option (String × FS) :=
  if src = dest then some (dest, fs)
  else
    match dictFind? fs src with
    | none => none
    | some srcNote =>
        if dictHas fs dest then
          let existingId := (dictFind? fs dest).bind Note.castId
          if truthyId existingId && truthyId srcNote.castId &&
              (existingId == srcNote.castId) then
            some (dest, dictErase fs src)
          else
            match safeDest fs dest ("(~from " ++ prov ++ ")") fuel with
            | none => none
            | some d => some (d, dictInsert (dictErase fs src) d srcNote)
        else some (dest, dictInsert (dictErase fs src) dest srcNote)

theorem safeDestLoop_spec (fs : FS) (stem sfx ext : String) :
    ∀ fuel j d, safeDestLoop fs stem sfx ext j fuel = some d →
      dictHas fs d = false ∧
      ∃ k, d = collisionCandidate stem sfx ext (j + k) ∧
        ∀ m < k, dictHas fs (collisionCandidate stem sfx ext (j + m)) = true := by
  intro fuel
  induction fuel with
  | zero =>
      intro j d h
      unfold safeDestLoop at h
      by_cases hc : dictHas fs (collisionCandidate stem sfx ext j)
      · rw [if_pos hc] at h
        cases h
      · rw [if_neg hc] at h
        cases h
        refine ⟨by simpa using hc, 0, by simp, ?_⟩
        intro m hm
        cases hm
  | succ f ih =>
      intro j d h
      unfold safeDestLoop at h
      by_cases hc : dictHas fs (collisionCandidate stem sfx ext j)
      · rw [if_pos hc] at h
        obtain ⟨hfree, k, hk, hall⟩ := ih (j + 1) d h
        refine ⟨hfree, k + 1, ?_, ?_⟩
        · rw [hk]
          congr 1
          omega
        · intro m hm
          cases m with
          | zero => simpa using hc
          | succ m' =>
              have h2 := hall m' (by omega)
              rw [show j + 1 + m' = j + (m' + 1) by omega] at h2
              exact h2
      · rw [if_neg hc] at h
        cases h
        refine ⟨by simpa using hc, 0, by simp, ?_⟩
        intro m hm
        cases hm

theorem truthyId_of_ne (a : String) (h : a ≠ "") : truthyId (some a) = true := by
  simp [truthyId, h]

theorem safeDest_spec (fs : FS) (base sfx : String) (fuel : Nat) (d : String)
    (hhas : dictHas fs base = true) (h : safeDest fs base sfx fuel = some d) :
    dictHas fs d = false ∧ d ≠ base ∧
    ∃ k, d = collisionCandidate (splitStemExt base).1 sfx (splitStemExt base).2 k ∧
      ∀ m < k, dictHas fs (collisionCandidate (splitStemExt base).1 sfx
        (splitStemExt base).2 m) = true := by
  unfold safeDest at h
  rw [if_pos hhas] at h
  obtain ⟨hfree, k, hk, hall⟩ :=
    safeDestLoop_spec fs (splitStemExt base).1 sfx (splitStemExt base).2 fuel 0 d h
  refine ⟨hfree, ?_, k, by simpa using hk, ?_⟩
  · intro heq
    rw [heq] at hfree
    rw [hfree] at hhas
    cases hhas
  · intro m hm
    simpa using hall m hm

/-- C2: for a copy or move whose destination exists and carries a
readable cast-id different from the source's, the destination file keeps
its prior note, and the content lands instead at the first free suffixed
variant `"<stem> (~from <source-name>)<ext>"` (with `" 2"`, `" 3"`, …
appended while candidates collide). -/
theorem safe_copy_move_foreign_id (fs : FS) (src dest prov : String)
    (fuel : Nat) (sn dn : Note) (a b : String)
    (hs : dictFind? fs src = some sn) (hd : dictFind? fs dest = some dn)
    (ha : dn.castId = some a) (hb : sn.castId = some b)
    (ha0 : a ≠ "") (hb0 : b ≠ "") (hab : a ≠ b) :
    (∀ d fs', safeCopy fs src dest prov fuel = some (d, fs') →
      d ≠ dest ∧ dictFind? fs' dest = some dn ∧ dictFind? fs' d = some sn ∧
      ∃ k, d = collisionCandidate (splitStemExt dest).1 ("(~from " ++ prov ++ ")")
          (splitStemExt dest).2 k ∧
        dictHas fs d = false ∧
        ∀ m < k, dictHas fs (collisionCandidate (splitStemExt dest).1
          ("(~from " ++ prov ++ ")") (splitStemExt dest).2 m) = true)
    ∧ (∀ d fs', safeMove fs src dest prov fuel = some (d, fs') →
      d ≠ dest ∧ dictFind? fs' dest = some dn ∧ dictFind? fs' d = some sn ∧
      ∃ k, d = collisionCandidate (splitStemExt dest).1 ("(~from " ++ prov ++ ")")
          (splitStemExt dest).2 k ∧
        dictHas fs d = false ∧
        ∀ m < k, dictHas fs (collisionCandidate (splitStemExt dest).1
          ("(~from " ++ prov ++ ")") (splitStemExt dest).2 m) = true) := by
  have hhas : dictHas fs dest = true := by simp [dictHas, hd]
  have hta : truthyId (some a) = true := truthyId_of_ne a ha0
  have htb : truthyId (some b) = true := truthyId_of_ne b hb0
  have hne : ((some a : Option String) == some b) = false := by
    simp [hab]
  have hsrcdest : src ≠ dest := by
    intro h
    rw [h, hd] at hs
    cases hs
    rw [ha] at hb
    cases hb
    exact hab rfl
  constructor
  · intro d fs' hrun
    unfold safeCopy at hrun
    simp only [hs, hhas, hd, Option.some_bind, ha, hb, hta, htb, hne,
      Bool.and_true, Bool.true_and, Bool.not_false, if_true] at hrun
    cases hsd : safeDest fs dest ("(~from " ++ prov ++ ")") fuel with
    | none => rw [hsd] at hrun; cases hrun
    | some d0 =>
        rw [hsd] at hrun
        simp only [Option.some.injEq, Prod.mk.injEq] at hrun
        obtain ⟨rfl, rfl⟩ := hrun
        obtain ⟨hfree, hneq, k, hk, hall⟩ := safeDest_spec fs dest _ fuel d0 hhas hsd
        refine ⟨hneq, ?_, dictFind?_insert_self fs d0 sn, k, hk, hfree, hall⟩
        rw [dictFind?_insert_ne fs d0 dest sn (fun h => hneq h.symm)]
        exact hd
  · intro d fs' hrun
    unfold safeMove at hrun
    rw [if_neg hsrcdest] at hrun
    simp only [hs, hhas, hd, Option.some_bind, ha, hb, hta, htb, hne,
      Bool.and_true, Bool.true_and, Bool.and_false, if_true, if_false,
      Bool.false_eq_true, reduceIte] at hrun
    cases hsd : safeDest fs dest ("(~from " ++ prov ++ ")") fuel with
    | none => rw [hsd] at hrun; cases hrun
    | some d0 =>
        rw [hsd] at hrun
        simp only [Option.some.injEq, Prod.mk.injEq] at hrun
        obtain ⟨rfl, rfl⟩ := hrun
        obtain ⟨hfree, hneq, k, hk, hall⟩ := safeDest_spec fs dest _ fuel d0 hhas hsd
        refine ⟨hneq, ?_, dictFind?_insert_self _ d0 sn, k, hk, hfree, hall⟩
        rw [dictFind?_insert_ne _ d0 dest sn (fun h => hneq h.symm),
          dictFind?_erase_ne fs src dest hsrcdest.symm]
        exact hd

/-- Witness filesystem for the C2 theorem: destination `x.md` holds
cast-id `a`, source `y.md` holds cast-id `b`. -/
def c2Fs : FS := [("x.md", ⟨some "a", "A"⟩), ("y.md", ⟨some "b", "B"⟩)]

/-- Witness for `safe_copy_move_foreign_id`: copying `y.md` over the
foreign-id `x.md` lands at `x (~from A).md` and leaves `x.md` intact. -/
theorem safe_copy_move_foreign_id_witness :
    ("x (~from A).md" ≠ "x.md" ∧
      dictFind? (dictInsert c2Fs "x (~from A).md" ⟨some "b", "B"⟩) "x.md"
        = some ⟨some "a", "A"⟩ ∧
      dictFind? (dictInsert c2Fs "x (~from A).md" ⟨some "b", "B"⟩) "x (~from A).md"
        = some ⟨some "b", "B"⟩ ∧
      ∃ k, "x (~from A).md" = collisionCandidate (splitStemExt "x.md").1
          ("(~from " ++ "A" ++ ")") (splitStemExt "x.md").2 k ∧
        dictHas c2Fs "x (~from A).md" = false ∧
        ∀ m < k, dictHas c2Fs (collisionCandidate (splitStemExt "x.md").1
          ("(~from " ++ "A" ++ ")") (splitStemExt "x.md").2 m) = true) :=
  (safe_copy_move_foreign_id c2Fs "y.md" "x.md" "A" 3 ⟨some "b", "B"⟩
      ⟨some "a", "A"⟩ "a" "b" (by decide) (by decide) rfl rfl
      (by decide) (by decide) (by decide)).1
    "x (~from A).md" (dictInsert c2Fs "x (~from A).md" ⟨some "b", "B"⟩) (by decide)

/-- C10: the safe copy diverts to a suffixed destination only when both
the existing destination's and the source's cast-ids are readable,
non-empty and different; whenever the destination exists but either
cast-id cannot be read, the destination is overwritten in place. -/
theorem safe_copy_unreadable_overwrites (fs : FS) (src dest prov : String)
    (fuel : Nat) (sn dn : Note) (d : String) (fs' : FS)
    (hs : dictFind? fs src = some sn) (hd : dictFind? fs dest = some dn)
    (hrun : safeCopy fs src dest prov fuel = some (d, fs')) :
    ((dn.castId = none ∨ sn.castId = none) →
      d = dest ∧ dictFind? fs' dest = some sn)
    ∧ (d ≠ dest →
      ∃ a b, dn.castId = some a ∧ sn.castId = some b ∧ a ≠ "" ∧ b ≠ "" ∧ a ≠ b) := by
  have hhas : dictHas fs dest = true := by simp [dictHas, hd]
  by_cases hguard : (truthyId dn.castId && truthyId sn.castId &&
      !(dn.castId == sn.castId)) = true
  · constructor
    · intro hun
      exfalso
      rcases hun with hun | hun <;> rw [hun] at hguard <;> simp [truthyId] at hguard
    · intro _
      have hparts : (truthyId dn.castId = true ∧ truthyId sn.castId = true) ∧
          (dn.castId == sn.castId) = false := by
        have h := hguard
        simp only [Bool.and_eq_true, Bool.not_eq_true'] at h
        exact h
      have hta : truthyId dn.castId = true := hparts.1.1
      have htb : truthyId sn.castId = true := hparts.1.2
      have hnebeq : (dn.castId == sn.castId) = false := hparts.2
      cases hdn : dn.castId with
      | none => rw [hdn] at hta; cases hta
      | some a =>
          cases hsn : sn.castId with
          | none => rw [hsn] at htb; cases htb
          | some b =>
              refine ⟨a, b, rfl, rfl, ?_, ?_, ?_⟩
              · rw [hdn] at hta
                simpa [truthyId] using hta
              · rw [hsn] at htb
                simpa [truthyId] using htb
              · rw [hdn, hsn] at hnebeq
                simpa using hnebeq
  · have hguardf : (truthyId dn.castId && truthyId sn.castId &&
        !(dn.castId == sn.castId)) = false := by
      cases hcc : (truthyId dn.castId && truthyId sn.castId &&
          !(dn.castId == sn.castId)) with
      | false => rfl
      | true => exact absurd hcc hguard
    have hrun' : dest = d ∧ dictInsert fs dest sn = fs' := by
      unfold safeCopy at hrun
      simp only [hs, hhas, hd, Option.some_bind, hguardf, if_true,
        Bool.false_eq_true, reduceIte, Option.some.injEq, Prod.mk.injEq] at hrun
      exact hrun
    obtain ⟨hde, hfs⟩ := hrun'
    constructor
    · intro _
      refine ⟨hde.symm, ?_⟩
      rw [← hfs]
      exact dictFind?_insert_self fs dest sn
    · intro hne
      exact absurd hde.symm hne

/-- Witness for `safe_copy_unreadable_overwrites`: the destination's note
has no readable cast-id (malformed header), so the copy overwrites
`x.md` in place. -/
theorem safe_copy_unreadable_overwrites_witness :
    ("x.md" : String) = "x.md" ∧
      dictFind? (dictInsert [("x.md", (⟨none, "A"⟩ : Note)),
          ("y.md", (⟨some "b", "B"⟩ : Note))] "x.md" ⟨some "b", "B"⟩) "x.md"
        = some ⟨some "b", "B"⟩ :=
  (safe_copy_unreadable_overwrites
      [("x.md", ⟨none, "A"⟩), ("y.md", ⟨some "b", "B"⟩)] "y.md" "x.md" "A" 3
      ⟨some "b", "B"⟩ ⟨none, "A"⟩ "x.md"
      (dictInsert [("x.md", ⟨none, "A"⟩), ("y.md", ⟨some "b", "B"⟩)] "x.md" ⟨some "b", "B"⟩)
      rfl rfl (by decide)).1 (Or.inl rfl)

end CastSync
